import Mathlib

/-!
Verification development for a pair of teaching notebooks on bootstrap and
jackknife resampling for Hubble-constant error estimation.

The notebook's numeric arrays are embedded as Lean lists over `ℚ` (measured
values are finite decimals) and over `ℝ` where the source computes real powers
and square roots.  Randomness (`np.random.choice`, `np.random.randint`,
`np.random.randn`) is modelled by passing the drawn index matrices and noise
arrays as explicit arguments, so every theorem quantifies over all possible
draws.
-/

/-- A row of the trimmed Hubble-measurement table `hubble_trim.dat`:
columns `h0`, `ep`, `em`, `date` (the `method`/`source` text columns play no
role in any computation). -/
structure HRow where
  h0 : ℚ
  ep : ℚ
  em : ℚ
  date : ℚ
deriving DecidableEq, Repr

/-- A row of the supernova table `sndata.txt`: columns `cz`, `mu`,
`sigma_mu`. -/
structure SNRow where
  cz : ℚ
  mu : ℚ
  sigma_mu : ℚ
deriving DecidableEq, Repr

/-- One resample drawn with replacement: `np`-style fancy indexing of the 1-D
array `xs` by a row of random indices (each entry of the result is
`xs[idx[k]]`). -/
def sample {α : Type} [Inhabited α] (xs : List α) (idx : List ℕ) : List α :=
  idx.map (fun j => xs.getD j default)

/-- `hboot = np.random.choice(data_modern.h0, size=(nbootstraps, ndata),
replace=True)`: the bootstrap resample matrix, modelled as fancy indexing of
`xs` by a matrix `idxs` of random indices (one row per bootstrap sample). -/
def choice {α : Type} [Inhabited α] (xs : List α) (idxs : List (List ℕ)) :
    List (List α) :=
  idxs.map (sample xs)

theorem sample_length {α : Type} [Inhabited α] (xs : List α) (idx : List ℕ) :
    (sample xs idx).length = idx.length := by
  simp [sample]

theorem sample_mem {α : Type} [Inhabited α] (xs : List α) (idx : List ℕ)
    (hvalid : ∀ j ∈ idx, j < xs.length) :
    ∀ x ∈ sample xs idx, x ∈ xs := by
  intro x hx
  rcases List.mem_map.mp hx with ⟨j, hj, rfl⟩
  have hjlt : j < xs.length := hvalid j hj
  rw [List.getD_eq_getElem xs default hjlt]
  exact List.getElem_mem hjlt

/-- C1: For every run of the bootstrap resampling step, the resampled array
has shape `N × n` (`N` bootstrap samples, each of the original sample size
`n = xs.length`), and every element of every resample is an element of the
original 1-D observation array. -/
theorem choice_shape_and_mem {α : Type} [Inhabited α]
    (xs : List α) (idxs : List (List ℕ)) (N : ℕ)
    (hN : idxs.length = N)
    (hrow : ∀ r ∈ idxs, r.length = xs.length)
    (hvalid : ∀ r ∈ idxs, ∀ j ∈ r, j < xs.length) :
    (choice xs idxs).length = N ∧
    (∀ row ∈ choice xs idxs, row.length = xs.length) ∧
    (∀ row ∈ choice xs idxs, ∀ x ∈ row, x ∈ xs) := by
  refine ⟨by simpa [choice] using hN, ?_, ?_⟩
  · intro row hrowmem
    rcases List.mem_map.mp hrowmem with ⟨idx, hidx, rfl⟩
    rw [sample_length]
    exact hrow idx hidx
  · intro row hrowmem
    rcases List.mem_map.mp hrowmem with ⟨idx, hidx, rfl⟩
    exact sample_mem xs idx (hvalid idx hidx)

/-- Concrete instantiation of C1: three observations, two bootstrap rows,
instantiated at the first resampled row `[1, 1, 3]` and its first entry. -/
theorem choice_shape_and_mem_witness :
    (choice [(1 : ℚ), 2, 3] [[0, 0, 2], [1, 2, 1]]).length = 2 ∧
    ([(1 : ℚ), 1, 3]).length = ([(1 : ℚ), 2, 3]).length ∧
    (1 : ℚ) ∈ [(1 : ℚ), 2, 3] :=
  have h := choice_shape_and_mem [(1 : ℚ), 2, 3] [[0, 0, 2], [1, 2, 1]] 2
    (by decide) (by decide) (by decide)
  ⟨h.1, h.2.1 [(1 : ℚ), 1, 3] (by decide),
    h.2.2 [(1 : ℚ), 1, 3] (by decide) 1 (by decide)⟩

/-- `np.mean` of a 1-D array: sum divided by length. -/
def mean (xs : List ℚ) : ℚ := xs.sum / xs.length

/-- `np.median` of a 1-D array: sort the values; for odd length take the
middle element, for even length average the two middle elements. -/
def median (xs : List ℚ) : ℚ :=
  let s := List.insertionSort (· ≤ ·) xs
  if xs.length % 2 = 1 then s.getD (xs.length / 2) 0
  else (s.getD (xs.length / 2 - 1) 0 + s.getD (xs.length / 2) 0) / 2

/-- `np.min` of a 1-D array (0 for the empty array, never used there). -/
def listMin : List ℚ → ℚ
  | [] => 0
  | x :: xs => xs.foldl min x

/-- `np.max` of a 1-D array (0 for the empty array, never used there). -/
def listMax : List ℚ → ℚ
  | [] => 0
  | x :: xs => xs.foldl max x

theorem foldl_min_le_init (xs : List ℚ) (a : ℚ) : xs.foldl min a ≤ a := by
  induction xs generalizing a with
  | nil => exact le_refl a
  | cons x xs ih =>
      calc (x :: xs).foldl min a = xs.foldl min (min a x) := rfl
        _ ≤ min a x := ih (min a x)
        _ ≤ a := min_le_left a x

theorem foldl_min_le_mem (xs : List ℚ) (a : ℚ) {y : ℚ} (h : y ∈ xs) :
    xs.foldl min a ≤ y := by
  induction xs generalizing a with
  | nil => cases h
  | cons x xs ih =>
      rcases List.mem_cons.mp h with rfl | hy
      · calc (y :: xs).foldl min a = xs.foldl min (min a y) := rfl
          _ ≤ min a y := foldl_min_le_init xs (min a y)
          _ ≤ y := min_le_right a y
      · exact ih (min a x) hy

theorem init_le_foldl_max (xs : List ℚ) (a : ℚ) : a ≤ xs.foldl max a := by
  induction xs generalizing a with
  | nil => exact le_refl a
  | cons x xs ih =>
      calc a ≤ max a x := le_max_left a x
        _ ≤ xs.foldl max (max a x) := ih (max a x)
        _ = (x :: xs).foldl max a := rfl

theorem mem_le_foldl_max (xs : List ℚ) (a : ℚ) {y : ℚ} (h : y ∈ xs) :
    y ≤ xs.foldl max a := by
  induction xs generalizing a with
  | nil => cases h
  | cons x xs ih =>
      rcases List.mem_cons.mp h with rfl | hy
      · calc y ≤ max a y := le_max_right a y
          _ ≤ xs.foldl max (max a y) := init_le_foldl_max xs (max a y)
          _ = (y :: xs).foldl max a := rfl
      · exact ih (max a x) hy

theorem listMin_le {xs : List ℚ} {y : ℚ} (h : y ∈ xs) : listMin xs ≤ y := by
  cases xs with
  | nil => cases h
  | cons x xs =>
      rcases List.mem_cons.mp h with rfl | hy
      · exact foldl_min_le_init xs y
      · exact foldl_min_le_mem xs x hy

theorem le_listMax {xs : List ℚ} {y : ℚ} (h : y ∈ xs) : y ≤ listMax xs := by
  cases xs with
  | nil => cases h
  | cons x xs =>
      rcases List.mem_cons.mp h with rfl | hy
      · exact init_le_foldl_max xs y
      · exact mem_le_foldl_max xs x hy

theorem mean_bounds {xs : List ℚ} (hne : xs ≠ []) {lo hi : ℚ}
    (hlo : ∀ x ∈ xs, lo ≤ x) (hhi : ∀ x ∈ xs, x ≤ hi) :
    lo ≤ mean xs ∧ mean xs ≤ hi := by
  have hlen : 0 < (xs.length : ℚ) := by
    have : 0 < xs.length := List.length_pos.mpr hne
    exact_mod_cast this
  have hsum_le : xs.sum ≤ xs.length * hi := by
    have := List.sum_le_card_nsmul xs hi hhi
    simpa [nsmul_eq_mul] using this
  have hle_sum : (xs.length : ℚ) * lo ≤ xs.sum := by
    have := List.card_nsmul_le_sum xs lo hlo
    simpa [nsmul_eq_mul] using this
  constructor
  · rw [mean, le_div_iff₀ hlen, mul_comm]
    exact hle_sum
  · rw [mean, div_le_iff₀ hlen, mul_comm]
    exact hsum_le

theorem median_bounds {xs : List ℚ} (hne : xs ≠ []) {lo hi : ℚ}
    (hlo : ∀ x ∈ xs, lo ≤ x) (hhi : ∀ x ∈ xs, x ≤ hi) :
    lo ≤ median xs ∧ median xs ≤ hi := by
  have hperm : (List.insertionSort (· ≤ ·) xs).Perm xs :=
    List.perm_insertionSort (· ≤ ·) xs
  have hlen : (List.insertionSort (· ≤ ·) xs).length = xs.length :=
    hperm.length_eq
  have hpos : 0 < xs.length := List.length_pos.mpr hne
  have hmem : ∀ i (h : i < (List.insertionSort (· ≤ ·) xs).length),
      lo ≤ (List.insertionSort (· ≤ ·) xs).getD i 0 ∧
      (List.insertionSort (· ≤ ·) xs).getD i 0 ≤ hi := by
    intro i h
    rw [List.getD_eq_getElem _ 0 h]
    have hx : (List.insertionSort (· ≤ ·) xs)[i] ∈ xs :=
      hperm.mem_iff.mp (List.getElem_mem h)
    exact ⟨hlo _ hx, hhi _ hx⟩
  rw [median]
  by_cases hodd : xs.length % 2 = 1
  · rw [if_pos hodd]
    have hi2 : xs.length / 2 < (List.insertionSort (· ≤ ·) xs).length := by
      rw [hlen]; exact Nat.div_lt_self hpos (by norm_num)
    exact hmem _ hi2
  · rw [if_neg hodd]
    have hi2 : xs.length / 2 < (List.insertionSort (· ≤ ·) xs).length := by
      rw [hlen]; exact Nat.div_lt_self hpos (by norm_num)
    have hi1 : xs.length / 2 - 1 < (List.insertionSort (· ≤ ·) xs).length :=
      lt_of_le_of_lt (Nat.sub_le _ _) hi2
    have h1 := hmem _ hi1
    have h2 := hmem _ hi2
    constructor
    · linarith [h1.1, h2.1]
    · linarith [h1.2, h2.2]

/-- C10: every bootstrap statistic lies within the range of the original
data: each per-sample mean of `hboot = np.random.choice(xs, (N, n))`
(`h0_mean = np.mean(hboot, axis=1)`), and likewise each per-sample median,
lies between the minimum and the maximum of the original observations. -/
theorem boot_stat_in_range (xs : List ℚ) (idxs : List (List ℕ))
    (_hne : xs ≠ [])
    (hrowne : ∀ r ∈ idxs, r ≠ [])
    (hvalid : ∀ r ∈ idxs, ∀ j ∈ r, j < xs.length) :
    ∀ row ∈ choice xs idxs,
      listMin xs ≤ mean row ∧ mean row ≤ listMax xs ∧
      listMin xs ≤ median row ∧ median row ≤ listMax xs := by
  intro row hrowmem
  rcases List.mem_map.mp hrowmem with ⟨idx, hidx, rfl⟩
  have hmem : ∀ x ∈ sample xs idx, x ∈ xs := sample_mem xs idx (hvalid idx hidx)
  have hlo : ∀ x ∈ sample xs idx, listMin xs ≤ x := fun x hx =>
    listMin_le (hmem x hx)
  have hhi : ∀ x ∈ sample xs idx, x ≤ listMax xs := fun x hx =>
    le_listMax (hmem x hx)
  have hne2 : sample xs idx ≠ [] := by
    intro hcontra
    have : idx = [] := by
      have := congrArg List.length hcontra
      rw [sample_length] at this
      exact List.length_eq_zero.mp this
    exact hrowne idx hidx this
  obtain ⟨hm1, hm2⟩ := mean_bounds hne2 hlo hhi
  obtain ⟨hd1, hd2⟩ := median_bounds hne2 hlo hhi
  exact ⟨hm1, hm2, hd1, hd2⟩

/-- Concrete instantiation of C10: three observations, one bootstrap row
`[1, 1, 3]` drawn by the index row `[0, 0, 2]`. -/
theorem boot_stat_in_range_witness :
    listMin [(1 : ℚ), 2, 3] ≤ mean [(1 : ℚ), 1, 3] ∧
    mean [(1 : ℚ), 1, 3] ≤ listMax [(1 : ℚ), 2, 3] ∧
    listMin [(1 : ℚ), 2, 3] ≤ median [(1 : ℚ), 1, 3] ∧
    median [(1 : ℚ), 1, 3] ≤ listMax [(1 : ℚ), 2, 3] :=
  boot_stat_in_range [(1 : ℚ), 2, 3] [[0, 0, 2]]
    (by decide) (by decide) (by decide) [(1 : ℚ), 1, 3] (by decide)

/-- One jackknife (leave-one-out) subset:
`logv_jack[i] = np.concatenate((logv[:i], logv[i+1:]))`, and likewise for
`mu_jack` and `weight_jack`. -/
def jack {α : Type} (xs : List α) (i : ℕ) : List α :=
  xs.take i ++ xs.drop (i + 1)

theorem jack_length {α : Type} (xs : List α) (i : ℕ) (h : i < xs.length) :
    (jack xs i).length = xs.length - 1 := by
  have htakelen : (xs.take i).length = i := by
    rw [List.length_take]
    exact min_eq_left (le_of_lt h)
  rw [jack, List.length_append, htakelen, List.length_drop]
  omega

/-- C3: for every index `i < n`, the `i`-th jackknife subset of a column
equals the column with its `i`-th element removed: it has length `n - 1`, its
first `i` elements are the column's first `i` elements, and the rest are the
column's elements after position `i`. -/
theorem jack_eq_eraseIdx {α : Type} (xs : List α) (i : ℕ)
    (h : i < xs.length) :
    (jack xs i).length = xs.length - 1 ∧
    jack xs i = xs.eraseIdx i ∧
    (jack xs i).take i = xs.take i ∧
    (jack xs i).drop i = xs.drop (i + 1) := by
  have htakelen : (xs.take i).length = i := by
    rw [List.length_take]
    exact min_eq_left (le_of_lt h)
  refine ⟨jack_length xs i h, ?_, ?_, ?_⟩
  · rw [jack, List.eraseIdx_eq_take_drop_succ]
  · rw [jack, List.take_left' htakelen]
  · rw [jack, List.drop_left' htakelen]

/-- Concrete instantiation of C3: removing index 1 from a 3-element column. -/
theorem jack_eq_eraseIdx_witness :
    (jack [(10 : ℚ), 20, 30] 1).length = 2 ∧
    jack [(10 : ℚ), 20, 30] 1 = ([(10 : ℚ), 20, 30]).eraseIdx 1 ∧
    (jack [(10 : ℚ), 20, 30] 1).take 1 = ([(10 : ℚ), 20, 30]).take 1 ∧
    (jack [(10 : ℚ), 20, 30] 1).drop 1 = ([(10 : ℚ), 20, 30]).drop 2 :=
  jack_eq_eraseIdx [(10 : ℚ), 20, 30] 1 (by decide)

/-- `np.mean` over the reals, for the jackknife error computation. -/
noncomputable def rmean (xs : List ℝ) : ℝ := xs.sum / xs.length

/-- `np.var` with the default `ddof=0`: the mean of the squared deviations
from the mean. -/
noncomputable def rvar (xs : List ℝ) : ℝ :=
  (xs.map (fun x => (x - rmean xs) ^ 2)).sum / xs.length

/-- `np.std`: the square root of `np.var`. -/
noncomputable def rstd (xs : List ℝ) : ℝ := Real.sqrt (rvar xs)

/-- `h0_sigma_jack = np.std(h0_jack) * np.sqrt(ndata - 1)`: the reported
jackknife standard deviation, computed from the list of the `ndata`
leave-one-out point estimates. -/
noncomputable def h0_sigma_jack (h0_jack : List ℝ) (ndata : ℕ) : ℝ :=
  rstd h0_jack * Real.sqrt ((ndata : ℝ) - 1)

theorem rvar_nonneg (xs : List ℝ) : 0 ≤ rvar xs := by
  rw [rvar]
  apply div_nonneg
  · apply List.sum_nonneg
    intro x hx
    rcases List.mem_map.mp hx with ⟨y, _, rfl⟩
    positivity
  · exact Nat.cast_nonneg _

/-- C2: the jackknife error estimate satisfies
`sigma_jack^2 = (n - 1) * sigma_sample^2`: the reported jackknife standard
deviation is the standard deviation of the `n` leave-one-out point estimates
times `sqrt (n - 1)`, and its square is `(n - 1)` times the variance of those
estimates, where `n = ndata` is the number of data rows. -/
theorem h0_sigma_jack_spec (h0_jack : List ℝ) (ndata : ℕ)
    (_hlen : h0_jack.length = ndata) (hpos : 1 ≤ ndata) :
    h0_sigma_jack h0_jack ndata = rstd h0_jack * Real.sqrt ((ndata : ℝ) - 1) ∧
    (h0_sigma_jack h0_jack ndata) ^ 2 = ((ndata : ℝ) - 1) * rvar h0_jack := by
  refine ⟨rfl, ?_⟩
  have hn1 : (0 : ℝ) ≤ (ndata : ℝ) - 1 := by
    have : (1 : ℝ) ≤ (ndata : ℝ) := by exact_mod_cast hpos
    linarith
  rw [h0_sigma_jack, rstd, mul_pow, Real.sq_sqrt (rvar_nonneg h0_jack),
    Real.sq_sqrt hn1, mul_comm]

/-- Concrete instantiation of C2: two leave-one-out estimates. -/
theorem h0_sigma_jack_spec_witness :
    h0_sigma_jack [(1 : ℝ), 3] 2 =
      rstd [(1 : ℝ), 3] * Real.sqrt (((2 : ℕ) : ℝ) - 1) ∧
    (h0_sigma_jack [(1 : ℝ), 3] 2) ^ 2 = (((2 : ℕ) : ℝ) - 1) * rvar [(1 : ℝ), 3] :=
  h0_sigma_jack_spec [(1 : ℝ), 3] 2 (by decide) (by decide)

/-- `def int_to_H0(b): return(10**(-0.2*b) * 10**5)`: converts a fitted
intercept of the Hubble-diagram line into a Hubble-constant value. -/
noncomputable def int_to_H0 (b : ℝ) : ℝ :=
  (10 : ℝ) ^ ((-0.2 : ℝ) * b) * (10 : ℝ) ^ (5 : ℕ)

theorem int_to_H0_eq (b : ℝ) : int_to_H0 b = (10 : ℝ) ^ ((5 : ℝ) - b / 5) := by
  have h10 : (0 : ℝ) < 10 := by norm_num
  have h5 : ((10 : ℝ) ^ (5 : ℕ)) = (10 : ℝ) ^ ((5 : ℝ)) := by
    rw [← Real.rpow_natCast 10 5]
    norm_num
  rw [int_to_H0, h5, ← Real.rpow_add h10]
  congr 1
  ring

/-- C5: the intercept-to-Hubble-constant conversion matches the hand-computed
reference: for every `b`, `int_to_H0 b = 10^(-0.2*b) * 10^5`, which equals
`10` raised to `5 - b/5`. -/
theorem int_to_H0_spec (b : ℝ) :
    int_to_H0 b = (10 : ℝ) ^ ((-0.2 : ℝ) * b) * (10 : ℝ) ^ (5 : ℕ) ∧
    int_to_H0 b = (10 : ℝ) ^ ((5 : ℝ) - b / 5) :=
  ⟨rfl, int_to_H0_eq b⟩

/-- `h0_best_err = (int_to_H0(intercept_best - intercept_err_best)
- int_to_H0(intercept_best + intercept_err_best)) / 2`: the symmetric
Hubble-constant error derived from the intercept error. -/
noncomputable def h0_best_err (intercept_best intercept_err_best : ℝ) : ℝ :=
  (int_to_H0 (intercept_best - intercept_err_best) -
    int_to_H0 (intercept_best + intercept_err_best)) / 2

theorem int_to_H0_lt_of_lt {b1 b2 : ℝ} (h : b1 < b2) :
    int_to_H0 b2 < int_to_H0 b1 := by
  rw [int_to_H0_eq, int_to_H0_eq]
  refine (Real.rpow_lt_rpow_left_iff (by norm_num : (1 : ℝ) < 10)).mpr ?_
  linarith

/-- C9: `int_to_H0` is strictly decreasing (`b1 < b2` implies
`int_to_H0 b1 > int_to_H0 b2`); consequently, for every positive intercept
error `e`, `int_to_H0 (b - e) > int_to_H0 (b + e)`, so the derived symmetric
error `h0_best_err b e` is positive. -/
theorem int_to_H0_strictAnti :
    (∀ b1 b2 : ℝ, b1 < b2 → int_to_H0 b2 < int_to_H0 b1) ∧
    (∀ b e : ℝ, 0 < e →
      int_to_H0 (b + e) < int_to_H0 (b - e) ∧ 0 < h0_best_err b e) := by
  constructor
  · intro b1 b2 h
    exact int_to_H0_lt_of_lt h
  · intro b e he
    have h : int_to_H0 (b + e) < int_to_H0 (b - e) :=
      int_to_H0_lt_of_lt (by linarith)
    refine ⟨h, ?_⟩
    rw [h0_best_err]
    linarith

/-- Concrete instantiation of C9: the conversion decreases from `b = 0` to
`b = 1`, and the derived error at intercept `0` with error `1` is positive. -/
theorem int_to_H0_strictAnti_witness :
    int_to_H0 1 < int_to_H0 0 ∧
    (int_to_H0 (0 + 1) < int_to_H0 (0 - 1) ∧ 0 < h0_best_err 0 1) :=
  ⟨int_to_H0_strictAnti.1 0 1 (by norm_num),
   int_to_H0_strictAnti.2 0 1 (by norm_num)⟩

/-- The `data_modern.h0` observation column. -/
def h0Col (t : List HRow) : List ℚ := t.map (·.h0)

/-- `data_modern = data.query('date>2001')`: the rows measured after 2001. -/
def queryModern (t : List HRow) : List HRow :=
  t.filter (fun r => 2001 < r.date)

/-- `sboot = hboot + np.random.randn(nbootstraps, ndata)`: elementwise sum of
the resample matrix and the Gaussian noise matrix. -/
def addJitter (hb noise : List (List ℚ)) : List (List ℚ) :=
  List.zipWith (List.zipWith (· + ·)) hb noise

/-- The kernel variables of the bootstrap part of the notebook session. -/
structure Session where
  data : List HRow
  data_modern : List HRow
  hboot : List (List ℚ)
  sboot : List (List ℚ)
  h0_mean : List ℚ
  h0_median_smoothed : List ℚ
deriving Repr

/-- The state just after `data = pd.read_fwf('hubble_trim.dat', ...)`: only
`data` is bound; the later cells fill the other variables. -/
def loadSession (t : List HRow) : Session :=
  { data := t, data_modern := [], hboot := [], sboot := [],
    h0_mean := [], h0_median_smoothed := [] }

/-- A notebook cell of the bootstrap session; each random draw the cell makes
is carried as explicit data. -/
inductive Step where
  | query : Step
  | boot (idxs : List (List ℕ)) : Step
  | meanStat : Step
  | smooth (noise : List (List ℚ)) : Step

/-- Execute one cell: each cell only binds new kernel variables, computed
from the current ones. -/
def applyStep : Step → Session → Session
  | Step.query, s => { s with data_modern := queryModern s.data }
  | Step.boot idxs, s => { s with hboot := choice (h0Col s.data_modern) idxs }
  | Step.meanStat, s => { s with h0_mean := s.hboot.map mean }
  | Step.smooth noise, s =>
      { s with sboot := addJitter s.hboot noise,
               h0_median_smoothed := (addJitter s.hboot noise).map median }

/-- Execute a list of cells in order. -/
def applySteps : List Step → Session → Session
  | [], s => s
  | st :: rest, s => applySteps rest (applyStep st s)

theorem applyStep_data (st : Step) (s : Session) :
    (applyStep st s).data = s.data := by
  cases st <;> rfl

theorem applySteps_data (steps : List Step) (s : Session) :
    (applySteps steps s).data = s.data := by
  induction steps generalizing s with
  | nil => rfl
  | cons st rest ih =>
      rw [applySteps, ih, applyStep_data]

/-- C7: after the measurement table is loaded, no subsequent operation
mutates it: filtering by date writes a new variable and every resampling or
jitter step writes new arrays, so after every sequence of later cells the
loaded table's contents are identical to what the load returned. -/
theorem loaded_data_never_mutated (t : List HRow) (steps : List Step) :
    (applySteps steps (loadSession t)).data = t := by
  rw [applySteps_data]
  rfl

/-- C4: in the smoothed-median bootstrap, the Gaussian jitter is added to the
resampled array before the per-sample medians are computed: each smoothed
statistic is the median of one row of `hboot + noise`, `sboot` is exactly
`hboot + noise`, and `hboot` itself is left unchanged by the smoothing
step. -/
theorem smooth_step_spec (s : Session) (noise : List (List ℚ)) (i : ℕ)
    (h1 : i < s.hboot.length) (h2 : i < noise.length) :
    (applyStep (Step.smooth noise) s).h0_median_smoothed.getD i 0 =
      median (List.zipWith (· + ·) (s.hboot.getD i []) (noise.getD i [])) ∧
    (applyStep (Step.smooth noise) s).sboot = addJitter s.hboot noise ∧
    (applyStep (Step.smooth noise) s).hboot = s.hboot := by
  refine ⟨?_, rfl, rfl⟩
  have hL : i < (addJitter s.hboot noise).length := by
    rw [addJitter, List.length_zipWith]
    exact lt_min h1 h2
  have hmap : i < ((addJitter s.hboot noise).map median).length := by
    simpa using hL
  show ((addJitter s.hboot noise).map median).getD i 0 = _
  rw [List.getD_eq_getElem _ 0 hmap, List.getElem_map,
    List.getD_eq_getElem _ [] h1, List.getD_eq_getElem _ [] h2]
  congr 1
  simp only [addJitter, List.getElem_zipWith]

/-- Concrete instantiation of C4: one bootstrap row and one noise row. -/
theorem smooth_step_spec_witness :
    (applyStep (Step.smooth [[1, 1]])
        (Session.mk [] [] [[(1 : ℚ), 2]] [] [] [])).h0_median_smoothed.getD 0 0 =
      median (List.zipWith (· + ·)
        ((Session.mk [] [] [[(1 : ℚ), 2]] [] [] []).hboot.getD 0 [])
        (([[(1 : ℚ), 1]]).getD 0 [])) ∧
    (applyStep (Step.smooth [[1, 1]])
        (Session.mk [] [] [[(1 : ℚ), 2]] [] [] [])).sboot =
      addJitter (Session.mk [] [] [[(1 : ℚ), 2]] [] [] []).hboot [[1, 1]] ∧
    (applyStep (Step.smooth [[1, 1]])
        (Session.mk [] [] [[(1 : ℚ), 2]] [] [] [])).hboot =
      (Session.mk [] [] [[(1 : ℚ), 2]] [] [] []).hboot :=
  smooth_step_spec (Session.mk [] [] [[(1 : ℚ), 2]] [] [] []) [[1, 1]] 0
    (by decide) (by decide)

/-- `cz = data['cz']`. -/
def czCol (t : List SNRow) : List ℚ := t.map (·.cz)

/-- `logv = np.log10(data['cz'])`. -/
noncomputable def logvCol (t : List SNRow) : List ℝ :=
  t.map (fun r => Real.logb 10 (r.cz : ℝ))

/-- `mu = data['mu']`. -/
def muCol (t : List SNRow) : List ℚ := t.map (·.mu)

/-- `sigma_mu = data['sigma_mu']`. -/
def sigmaMuCol (t : List SNRow) : List ℚ := t.map (·.sigma_mu)

/-- `weight = 1/sigma_mu**2`. -/
def weightCol (t : List SNRow) : List ℚ := t.map (fun r => 1 / r.sigma_mu ^ 2)

/-- C6: the dependent columns of the same table always have matching row
counts: the loaded columns all have the table's length `n`; resampling all of
them by one index row of length `n` yields rows of length `n`; and the `i`-th
jackknife subset of each of them has length `n - 1`. -/
theorem columns_row_counts_match (t : List SNRow) (idx : List ℕ) (i : ℕ)
    (hidx : idx.length = t.length) (hi : i < t.length) :
    ((czCol t).length = t.length ∧ (logvCol t).length = t.length ∧
     (muCol t).length = t.length ∧ (sigmaMuCol t).length = t.length ∧
     (weightCol t).length = t.length) ∧
    ((sample (logvCol t) idx).length = t.length ∧
     (sample (muCol t) idx).length = t.length ∧
     (sample (weightCol t) idx).length = t.length) ∧
    ((jack (logvCol t) i).length = t.length - 1 ∧
     (jack (muCol t) i).length = t.length - 1 ∧
     (jack (weightCol t) i).length = t.length - 1) := by
  have hcz : (czCol t).length = t.length := List.length_map t _
  have hlogv : (logvCol t).length = t.length := List.length_map t _
  have hmu : (muCol t).length = t.length := List.length_map t _
  have hsig : (sigmaMuCol t).length = t.length := List.length_map t _
  have hw : (weightCol t).length = t.length := List.length_map t _
  refine ⟨⟨hcz, hlogv, hmu, hsig, hw⟩, ⟨?_, ?_, ?_⟩, ⟨?_, ?_, ?_⟩⟩
  · rw [sample_length, hidx]
  · rw [sample_length, hidx]
  · rw [sample_length, hidx]
  · rw [jack_length _ _ (hlogv ▸ hi), hlogv]
  · rw [jack_length _ _ (hmu ▸ hi), hmu]
  · rw [jack_length _ _ (hw ▸ hi), hw]

/-- Concrete instantiation of C6: a two-row table, one index row, `i = 0`. -/
theorem columns_row_counts_match_witness :
    ((czCol [SNRow.mk 1 2 3, SNRow.mk 4 5 6]).length = 2 ∧
     (logvCol [SNRow.mk 1 2 3, SNRow.mk 4 5 6]).length = 2 ∧
     (muCol [SNRow.mk 1 2 3, SNRow.mk 4 5 6]).length = 2 ∧
     (sigmaMuCol [SNRow.mk 1 2 3, SNRow.mk 4 5 6]).length = 2 ∧
     (weightCol [SNRow.mk 1 2 3, SNRow.mk 4 5 6]).length = 2) ∧
    ((sample (logvCol [SNRow.mk 1 2 3, SNRow.mk 4 5 6]) [1, 1]).length = 2 ∧
     (sample (muCol [SNRow.mk 1 2 3, SNRow.mk 4 5 6]) [1, 1]).length = 2 ∧
     (sample (weightCol [SNRow.mk 1 2 3, SNRow.mk 4 5 6]) [1, 1]).length = 2) ∧
    ((jack (logvCol [SNRow.mk 1 2 3, SNRow.mk 4 5 6]) 0).length = 1 ∧
     (jack (muCol [SNRow.mk 1 2 3, SNRow.mk 4 5 6]) 0).length = 1 ∧
     (jack (weightCol [SNRow.mk 1 2 3, SNRow.mk 4 5 6]) 0).length = 1) :=
  columns_row_counts_match [SNRow.mk 1 2 3, SNRow.mk 4 5 6] [1, 1] 0
    (by decide) (by decide)

/-- The kernel variables bound by the supernova load cell. -/
structure SNSession where
  sndata : List SNRow
  cz : List ℚ
  mu : List ℚ
  sigma_mu : List ℚ
  weight : List ℚ
deriving DecidableEq, Repr

/-- `data = pd.read_fwf(path + 'sndata.txt')` followed by the column
assignments.  `read_fwf` either returns a table or raises on a missing or
malformed file; the cell wraps no handler around it, so an `Except.error`
passes through unchanged. -/
def loadCell (r : Except String (List SNRow)) (s : SNSession) :
    Except String SNSession :=
  match r, s with
  | Except.error e, _ => Except.error e
  | Except.ok t, _ =>
      Except.ok (SNSession.mk t (czCol t) (muCol t) (sigmaMuCol t)
        (weightCol t))

/-- The kernel state visible after the load cell runs: when the cell raises,
the pre-cell state is what remains. -/
def stateAfterLoad (r : Except String (List SNRow)) (s : SNSession) :
    SNSession :=
  match loadCell r s with
  | Except.error _ => s
  | Except.ok s2 => s2

/-- C8: a failed load surfaces the exception unchanged to the caller — there
is no recovery, retry, or partial-failure handling — and modifies no program
state; a successful load yields a new state. -/
theorem load_error_propagates (e : String) (s : SNSession) :
    loadCell (Except.error e) s = Except.error e ∧
    stateAfterLoad (Except.error e) s = s ∧
    ∀ t, loadCell (Except.ok t) s =
      Except.ok (SNSession.mk t (czCol t) (muCol t) (sigmaMuCol t)
        (weightCol t)) := by
  refine ⟨rfl, rfl, fun t => rfl⟩
